import Mathlib

/-!
Verification of the Graphene transaction serializer and signer
(`graphenebase/transactions.py`) against its specification.

Byte strings are modelled as `List Nat` (each element a byte value).
Fallible Python operations (`struct.pack` range errors, `bytes(None)`,
`binascii.unhexlify`, `int(...)` parsing, `time.strptime`) are modelled with
`Option`/`Except`.  Recursions that are not structural in the source are given
a fuel parameter so that every definition evaluates by kernel reduction; the
fuel is always large enough that the model agrees with the source on all
inputs the source accepts.
-/

namespace Graphene

/-- Fuel-driven body of `varint`: emit `(n AND 0x7f) OR 0x80` and shift right
by 7 while `n >= 0x80`, then the final 7-bit tail (transactions.py lines
114-122).  Since `n AND 0x7f < 0x80`, the OR with `0x80` is addition. -/
def varintAux : Nat → Nat → List Nat
  | 0, n => [n]
  | fuel + 1, n => if 0x80 ≤ n then (n % 0x80 + 0x80) :: varintAux fuel (n >>> 7) else [n]

/-- Varint encoding (`varint`, transactions.py lines 114-122).  The fuel `n`
strictly dominates the number of 7-bit groups of `n`. -/
def varint (n : Nat) : List Nat := varintAux n n

/-- Python 3 `ord` applied to an element obtained by iterating a `bytes`
object: the element is an `int`, and `ord` of an `int` raises `TypeError`,
modelled as `none`.  (The repository is Python 3 throughout:
`bytes(s, 'utf-8')`, argumentless `super().__init__`, the `__bytes__`
protocol.) -/
def pyOrd? (_b : Nat) : Option Nat := none

/-- Loop of `varintdecode` (transactions.py lines 125-136) as the
repository's Python 3 executes it: `for c in data` over a `bytes` value
yields ints, and `b = ord(c)` raises on the first byte, so any non-empty
input raises and only an empty input reaches the `return`. -/
def varintdecodeAux : List Nat → Nat → Nat → Option Nat
  | [], _, result => some result
  | c :: rest, shift, result =>
    match pyOrd? c with
    | none => none
    | some b =>
      if b &&& 0x80 = 0 then some (result ||| ((b &&& 0x7f) <<< shift))
      else varintdecodeAux rest (shift + 7) (result ||| ((b &&& 0x7f) <<< shift))

/-- `varintdecode` (transactions.py lines 125-136) under Python 3; `none`
models the raised `TypeError`. -/
def varintdecode (data : List Nat) : Option Nat := varintdecodeAux data 0 0

/-- Modelled from the spec: the varint decoder of §4.1 — "accumulate 7-bit
groups with increasing shift until a byte with clear continuation bit is
consumed" — with each input byte contributing its value.  This is the
evident intent of the code's `ord(c)` (its Python 2 reading) and serves to
show the claimed roundtrip itself is right. -/
def varintdecodeSpecAux : List Nat → Nat → Nat → Nat
  | [], _, result => result
  | c :: rest, shift, result =>
    if c &&& 0x80 = 0 then result ||| ((c &&& 0x7f) <<< shift)
    else varintdecodeSpecAux rest (shift + 7) (result ||| ((c &&& 0x7f) <<< shift))

/-- The spec's varint decoder over a full byte string. -/
def varintdecodeSpec (data : List Nat) : Nat := varintdecodeSpecAux data 0 0

/-- Little-endian fixed-width encoding: `struct.pack` with `<B`, `<H`, `<I`,
`<Q` produces `width` bytes, least significant first. -/
def natToLE : Nat → Nat → List Nat
  | 0, _ => []
  | width + 1, n => n % 256 :: natToLE width (n / 256)

/-- Fuel-driven minimal big-endian byte string of a natural number, as used by
the DER integer encoder of the external `ecdsa` package. -/
def beBytesAux : Nat → Nat → List Nat
  | 0, n => [n]
  | fuel + 1, n => if n < 256 then [n] else beBytesAux fuel (n / 256) ++ [n % 256]

/-- Minimal big-endian byte string of `n` (fuel `n` dominates the byte count). -/
def beBytes (n : Nat) : List Nat := beBytesAux n n

/-- Big-endian fixed-width encoding used by `ecdsa.util.sigencode_string` for
the 32-byte `r` and `s` components. -/
def natToBE (width n : Nat) : List Nat := (natToLE width n).reverse

/-- UTF-8 encoding of one Unicode scalar value, as produced by Python
`bytes(s, 'utf-8')` for each character. -/
def utf8Char (n : Nat) : List Nat :=
  if n < 0x80 then [n]
  else if n < 0x800 then [0xC0 + n / 64, 0x80 + n % 64]
  else if n < 0x10000 then [0xE0 + n / 4096, 0x80 + n / 64 % 64, 0x80 + n % 64]
  else [0xF0 + n / 262144, 0x80 + n / 4096 % 64, 0x80 + n / 64 % 64, 0x80 + n % 64]

/-- UTF-8 encoding of a character list (Python `bytes(s, 'utf-8')`). -/
def utf8 : List Char → List Nat
  | [] => []
  | c :: rest => utf8Char c.toNat ++ utf8 rest

/-- Value of one hexadecimal digit; `binascii.unhexlify` accepts both cases. -/
def hexVal? (c : Char) : Option Nat :=
  if '0' ≤ c ∧ c ≤ '9' then some (c.toNat - 48)
  else if 'a' ≤ c ∧ c ≤ 'f' then some (c.toNat - 87)
  else if 'A' ≤ c ∧ c ≤ 'F' then some (c.toNat - 55)
  else none

/-- Loop of `binascii.unhexlify`: consume hex digits two at a time; an odd
length or a non-hex character raises `binascii.Error` (modelled as `none`). -/
def unhexlifyAux : List Char → Option (List Nat)
  | [] => some []
  | [_] => none
  | a :: b :: rest =>
    match hexVal? a, hexVal? b, unhexlifyAux rest with
    | some hi, some lo, some r => some ((16 * hi + lo) :: r)
    | _, _, _ => none

/-- `binascii.unhexlify` on a text string (used on the hex chain id). -/
def unhexlify? (s : String) : Option (List Nat) := unhexlifyAux s.data

/-- Split a character list at every occurrence of `sep`, like Python
`str.split(sep)`: `n` separators yield `n + 1` (possibly empty) parts. -/
def splitOn (sep : Char) : List Char → List (List Char)
  | [] => [[]]
  | c :: rest =>
    match splitOn sep rest with
    | part :: parts => if c = sep then [] :: part :: parts else (c :: part) :: parts
    | [] => [[c]]

/-- Decimal digit value. -/
def digitVal? (c : Char) : Option Nat :=
  if '0' ≤ c ∧ c ≤ '9' then some (c.toNat - 48) else none

/-- Accumulating loop of decimal parsing. -/
def digitsGo : List Char → Nat → Option Nat
  | [], acc => some acc
  | c :: rest, acc =>
    match digitVal? c with
    | some d => digitsGo rest (acc * 10 + d)
    | none => none

/-- Parse a non-empty all-digit character list as a natural number. -/
def digits? : List Char → Option Nat
  | [] => none
  | c :: rest => digitsGo (c :: rest) 0

/-- ASCII decimal digit test. -/
def isDigit (c : Char) : Bool := '0' ≤ c ∧ c ≤ '9'

/-- The whitespace code points `int(str)` strips around a number
(CPython `Py_UNICODE_ISSPACE`). -/
def isPySpace (c : Char) : Bool :=
  c.toNat ∈ [9, 10, 11, 12, 13, 28, 29, 30, 31, 32, 0x85, 0xA0, 0x1680,
    0x2000, 0x2001, 0x2002, 0x2003, 0x2004, 0x2005, 0x2006, 0x2007, 0x2008,
    0x2009, 0x200A, 0x2028, 0x2029, 0x202F, 0x205F, 0x3000]

/-- Drop leading whitespace. -/
def dropSpaces : List Char → List Char
  | [] => []
  | c :: rest => if isPySpace c then dropSpaces rest else c :: rest

/-- Strip the surrounding whitespace `int(str)` ignores. -/
def pyStrip (s : List Char) : List Char :=
  (dropSpaces (dropSpaces s).reverse).reverse

/-- Continuation of the digit run of `int(str)` after its first digit: the
grammar `('_'? digit)*` — a single underscore is allowed only between two
digits. -/
def digitsUnd : List Char → Nat → Option Nat
  | [], acc => some acc
  | c :: rest, acc =>
    if c = '_' then
      match rest with
      | [] => none
      | c2 :: rest2 =>
        match digitVal? c2 with
        | some d => digitsUnd rest2 (acc * 10 + d)
        | none => none
    else
      match digitVal? c with
      | some d => digitsUnd rest (acc * 10 + d)
      | none => none

/-- The digit run of `int(str)`: `digit ('_'? digit)*`, consuming the whole
input. -/
def pyDigits? : List Char → Option Nat
  | [] => none
  | c :: rest =>
    match digitVal? c with
    | some d => digitsUnd rest d
    | none => none

/-- Python `int(str)` in base 10 as `ObjectId.__init__` calls it: optional
surrounding whitespace, an optional sign, then an underscore-grouped run of
decimal digits — so `int(" 5") = 5`, `int("1_0") = 10`, and a leading minus
makes negative numbers parse.  (CPython first normalizes Unicode decimal
digits to ASCII; digits are taken as ASCII here.) -/
def pyInt? (s : List Char) : Option Int :=
  match pyStrip s with
  | [] => none
  | c :: rest =>
    if c = '-' then (pyDigits? rest).map (fun (n : Nat) => -(n : Int))
    else if c = '+' then (pyDigits? rest).map (fun (n : Nat) => (n : Int))
    else (pyDigits? (c :: rest)).map (fun (n : Nat) => (n : Int))

/-- Recognizer for `('_'? digit)*` after a first digit. -/
def groupedTail : List Char → Bool
  | [] => true
  | c :: rest =>
    if c = '_' then
      match rest with
      | [] => false
      | c2 :: rest2 => isDigit c2 && groupedTail rest2
    else isDigit c && groupedTail rest

/-- Recognizer for a non-empty underscore-grouped digit run. -/
def isDigitRun : List Char → Bool
  | [] => false
  | c :: rest => isDigit c && groupedTail rest

/-- Boolean companion of `pyInt?`: after stripping surrounding whitespace,
an optional sign followed by an underscore-grouped run of decimal digits. -/
def isIntLit (s : List Char) : Bool :=
  match pyStrip s with
  | [] => false
  | c :: rest =>
    if c = '-' ∨ c = '+' then isDigitRun rest
    else isDigitRun (c :: rest)

/-- Gregorian leap-year test used by `datetime.date.toordinal`. -/
def isLeap (y : Nat) : Prop := y % 4 = 0 ∧ (y % 100 ≠ 0 ∨ y % 400 = 0)

instance (y : Nat) : Decidable (isLeap y) := by unfold isLeap; infer_instance

/-- Days before the first of month `m` in a common year. -/
def cumDays (m : Nat) : Nat :=
  [0, 0, 31, 59, 90, 120, 151, 181, 212, 243, 273, 304, 334].getD m 0

/-- Days from 1970-01-01 to year `y`, month `mo`, day `d` (proleptic
Gregorian), exactly as `calendar.timegm` computes it via
`datetime.date(year, month, 1).toordinal() + day - 1`; day overflow past the
month's end is carried, matching `timegm`. -/
def daysFromCivil (y mo d : Nat) : Int :=
  let py : Int := (y : Int) - 1
  365 * py + py / 4 - py / 100 + py / 400 + (cumDays mo : Int) +
    (if isLeap y ∧ 3 ≤ mo then 1 else 0) + ((d : Int) - 1) + 1 - 719163

/-- Model of `timegm(time.strptime(s + "UTC", '%Y-%m-%dT%H:%M:%S%Z'))`
(`PointInTime.__bytes__`, transactions.py line 218): the text must be
`YYYY-MM-DDTHH:MM:SS` (4-digit year, 1-2 digit other fields, months 1-12,
days 1-31, hours 0-23, minutes 0-59, seconds 0-61 as in `_strptime`); the
result is seconds since the Unix epoch and may be negative. -/
def parseUTC? (s : String) : Option Int :=
  match splitOn 'T' s.data with
  | [datePart, timePart] =>
    match splitOn '-' datePart, splitOn ':' timePart with
    | [ys, ms, ds], [hs, mins, ss] =>
      if ys.length = 4 ∧ 1 ≤ ms.length ∧ ms.length ≤ 2 ∧ 1 ≤ ds.length ∧ ds.length ≤ 2 ∧
          1 ≤ hs.length ∧ hs.length ≤ 2 ∧ 1 ≤ mins.length ∧ mins.length ≤ 2 ∧
          1 ≤ ss.length ∧ ss.length ≤ 2 then
        match digits? ys, digits? ms, digits? ds, digits? hs, digits? mins, digits? ss with
        | some y, some mo, some d, some h, some mi, some sec =>
          if 1 ≤ y ∧ 1 ≤ mo ∧ mo ≤ 12 ∧ 1 ≤ d ∧ d ≤ 31 ∧ h ≤ 23 ∧ mi ≤ 59 ∧ sec ≤ 61 then
            some (86400 * daysFromCivil y mo d + 3600 * (h : Int) + 60 * (mi : Int) + (sec : Int))
          else none
        | _, _, _, _, _, _ => none
      else none
    | _, _ => none
  | _ => none

/-- Association-list lookup modelling Python `dict` indexing and `in`. -/
def lookupAssoc {α : Type} (l : List (String × α)) (k : String) : Option α :=
  match l with
  | [] => none
  | (k', v) :: rest => if k' = k then some v else lookupAssoc rest k

/-- Object types for object ids (transactions.py lines 21-38). -/
def object_type : List (String × Nat) :=
  [("null", 0), ("base", 1), ("account", 2), ("asset", 3), ("force_settlement", 4),
   ("committee_member", 5), ("witness", 6), ("limit_order", 7), ("call_order", 8),
   ("custom", 9), ("proposal", 10), ("operation_history", 11), ("withdraw_permission", 12),
   ("vesting_balance", 13), ("worker", 14), ("balance", 15), ("OBJECT_TYPE_COUNT", 16)]

/-- Result of a successful `ObjectId.__init__` (transactions.py lines 319-329):
the parsed space, type and instance (all produced by Python `int`, hence
possibly negative) and the original text kept in `self.Id`. -/
structure ObjIdRec where
  space : Int
  ty : Int
  inst : Int
  idStr : String
deriving DecidableEq

/-- `ObjectId.__init__` (transactions.py lines 319-329): split on dots; with
exactly three parts, convert each with `int` (raising `ValueError` on
non-integers); with a truthy `type_verify`, assert the registered type index
equals the parsed type; otherwise raise `Exception("Object id is invalid")`. -/
def ObjectIdInit (object_str : String) (type_verify : Option String) : Except String ObjIdRec :=
  match splitOn '.' object_str.data with
  | [a, b, c] =>
    match pyInt? a with
    | none => .error "ValueError"
    | some sp =>
      match pyInt? b with
      | none => .error "ValueError"
      | some ty =>
        match pyInt? c with
        | none => .error "ValueError"
        | some inst =>
          match type_verify with
          | none => .ok ⟨sp, ty, inst, object_str⟩
          | some tv =>
            if tv = "" then .ok ⟨sp, ty, inst, object_str⟩
            else
              match lookupAssoc object_type tv with
              | none => .error "KeyError"
              | some expected =>
                if (expected : Int) = ty then .ok ⟨sp, ty, inst, object_str⟩
                else .error "AssertionError: Object id does not match object type!"
  | _ => .error "Exception: Object id is invalid"

/-- `ObjectId.__bytes__` (transactions.py lines 330-331): only the instance is
emitted, as a varint via `Id`/`Varint32`; a negative instance makes
`bytes([n])` raise (modelled as `none`). -/
def ObjIdRec.wire? (o : ObjIdRec) : Option (List Nat) :=
  if 0 ≤ o.inst then some (varint o.inst.toNat) else none

mutual
/-- Wire values of the codec layer, one constructor per class of
transactions.py: `Uint8/16/32/64`, `Varint32`, `Int64`, `String`, `Bytes`,
`Void`, `PointInTime`, `Signature`, `ObjectId`, `Operation`, `Array`/`Set`,
`GrapheneObject` (with `data` an ordered dict or `None`), `Optional`;
`rawStr` is a bare Python `str` stored as a field value and `pyNone` is the
Python `None` object. -/
inductive Value : Type where
  | uint8 (n : Nat)
  | uint16 (n : Nat)
  | uint32 (n : Nat)
  | uint64 (n : Nat)
  | varint32 (n : Nat)
  | int64 (n : Int)
  | stringV (s : String)
  | bytesV (s : String) (len : Nat)
  | voidV
  | pointInTime (s : String)
  | signatureV (bs : List Nat)
  | objectIdV (o : ObjIdRec)
  | operationV (opId : Nat) (body : Value)
  | arrayV (xs : ValueList)
  | objV (fields : FieldList)
  | objNone
  | optionalV (d : Value)
  | rawStr (s : String)
  | pyNone

/-- A list of values (elements of an `Array`/`Set`). -/
inductive ValueList : Type where
  | nil
  | cons (v : Value) (rest : ValueList)

/-- The ordered `(field name, value)` pairs of a `GrapheneObject`. -/
inductive FieldList : Type where
  | nil
  | cons (name : String) (v : Value) (rest : FieldList)
end

/-- Number of elements of a `ValueList` (Python `len`). -/
def ValueList.length : ValueList → Nat
  | .nil => 0
  | .cons _ rest => rest.length + 1

mutual
/-- `bytes(value)` for each codec class, following each `__bytes__` method of
transactions.py; `none` models a raised exception (`struct.error` on
out-of-range packs, `TypeError` on `bytes(None)` and `bytes(str)`,
`ValueError` from `strptime` or `bytes([negative])`). -/
def bytes? : Value → Option (List Nat)
  | .uint8 n => if n < 2 ^ 8 then some (natToLE 1 n) else none
  | .uint16 n => if n < 2 ^ 16 then some (natToLE 2 n) else none
  | .uint32 n => if n < 2 ^ 32 then some (natToLE 4 n) else none
  | .uint64 n => if n < 2 ^ 64 then some (natToLE 8 n) else none
  | .varint32 n => some (varint n)
  | .int64 n =>
    if -(2 ^ 63) ≤ n ∧ n < 2 ^ 63 then some (natToLE 8 (n.emod (2 ^ 64)).toNat) else none
  | .stringV s => some (varint s.data.length ++ utf8 s.data)
  | .bytesV s len => some (varint len ++ utf8 s.data)
  | .voidV => some []
  | .pointInTime s =>
    match parseUTC? s with
    | some t => if 0 ≤ t ∧ t < 2 ^ 32 then some (natToLE 4 t.toNat) else none
    | none => none
  | .signatureV bs => some bs
  | .objectIdV o => o.wire?
  | .operationV opId body =>
    match bytes? body with
    | some b => some (varint opId ++ b)
    | none => none
  | .arrayV xs =>
    match listBytes? xs with
    | some b => some (varint xs.length ++ b)
    | none => none
  | .objV fields => fieldsBytes? fields
  | .objNone => some []
  | .optionalV d =>
    match bytes? d with
    | some [] => some [0]
    | some bs => some (1 :: bs)
    | none => none
  | .rawStr _ => none
  | .pyNone => none

/-- Concatenation of the encodings of array elements (`Array.__bytes__`,
transactions.py line 212). -/
def listBytes? : ValueList → Option (List Nat)
  | .nil => some []
  | .cons v rest =>
    match bytes? v, listBytes? rest with
    | some b, some r => some (b ++ r)
    | _, _ => none

/-- `GrapheneObject.__bytes__` (transactions.py lines 292-300): concatenate
the field encodings in declaration order, treating a field value that is a
bare Python `str` as its UTF-8 bytes with no length prefix. -/
def fieldsBytes? : FieldList → Option (List Nat)
  | .nil => some []
  | .cons _ v rest =>
    match (match v with | .rawStr s => some (utf8 s.data) | _ => bytes? v),
        fieldsBytes? rest with
    | some b, some r => some (b ++ r)
    | _, _ => none
end

/-- Ordered-dict assignment `self.data[name] = value`: replace in place if the
key exists, append otherwise. -/
def setField : FieldList → String → Value → FieldList
  | .nil, n, v => .cons n v .nil
  | .cons m w rest, n, v =>
    if m = n then .cons m v rest else .cons m w (setField rest n v)

/-- Ordered-dict lookup on the fields of a `GrapheneObject`. -/
def lookupField : FieldList → String → Option Value
  | .nil, _ => none
  | .cons m w rest, n => if m = n then some w else lookupField rest n

/-- Python truthiness `bool(x)` of a stored field value: `None` is falsy, a
bare string is falsy iff empty, and every codec-class instance is truthy
(none defines `__bool__` or `__len__`). -/
def pyTruthy : Value → Bool
  | .pyNone => false
  | .rawStr s => !s.isEmpty
  | _ => true

/-- The field names appearing as keys in `GrapheneObject.__json__`
(transactions.py lines 301-311): a field is skipped exactly when its value is
an `Optional` whose `isempty()` returns true, and `isempty` returns
`bool(self.data)` — the truthiness of the wrapped data. -/
def jsonKeys : FieldList → List String
  | .nil => []
  | .cons n v rest =>
    match v with
    | .optionalV d => if pyTruthy d then jsonKeys rest else n :: jsonKeys rest
    | _ => n :: jsonKeys rest

/-- `Asset.__init__` (transactions.py lines 482-486): an `Int64` amount and
an `ObjectId` checked against the `asset` type. -/
def Asset (_amount : Int) (_asset_id : String) : Except String FieldList := do
  let oid ← ObjectIdInit _asset_id (some "asset")
  .ok (.cons "amount" (.int64 _amount) (.cons "asset_id" (.objectIdV oid) .nil))

/-- `Memo.__init__` with no `_message` (transactions.py lines 490, 507-508):
the object is constructed as `GrapheneObject(None)`, whose encoding is empty. -/
def MemoEmpty : Value := .objNone

/-- `Transfer.__init__` (transactions.py lines 512-520): fee, from/to object
ids checked against the `account` type, amount, an `Optional` memo (default
argument `None`), and an empty extensions `Set`. -/
def Transfer (_feeObj : Value) (_from _to : String) (_amountObj : Value) (_memo : Value) :
    Except String FieldList := do
  let fromId ← ObjectIdInit _from (some "account")
  let toId ← ObjectIdInit _to (some "account")
  .ok (.cons "fee" _feeObj
        (.cons "from" (.objectIdV fromId)
          (.cons "to" (.objectIdV toId)
            (.cons "amount" _amountObj
              (.cons "memo" (.optionalV _memo)
                (.cons "extensions" (.arrayV .nil) .nil))))))

/-- `Signed_Transaction.__init__` (transactions.py lines 337-345): the ordered
field layout, with an empty extensions `Set` and a `Void` signatures
placeholder. -/
def Signed_Transaction (refNum refPfx : Nat) (expiration : String) (ops : ValueList) :
    FieldList :=
  .cons "ref_block_num" (.uint16 refNum)
    (.cons "ref_block_prefix" (.uint32 refPfx)
      (.cons "expiration" (.pointInTime expiration)
        (.cons "operations" (.arrayV ops)
          (.cons "extensions" (.arrayV .nil)
            (.cons "signatures" .voidV .nil)))))

/-- One iteration of the external ECDSA signer for a fixed key and digest:
`sk.sign_digest` yields an `(r, s)` pair, and `recover_public_key` applied to
index `i` yields some public-key byte string.  The signing loop of `sign`
consumes a stream of such attempts. -/
structure Attempt where
  r : Nat
  s : Nat
  recover : Nat → List Nat

/-- Content bytes of a DER INTEGER as produced by `ecdsa.der.encode_integer`:
minimal big-endian, with a leading zero byte when the top bit is set. -/
def derContent (n : Nat) : List Nat :=
  if 128 ≤ (beBytes n).headD 0 then 0 :: beBytes n else beBytes n

/-- A DER INTEGER: tag `0x02`, content length, content. -/
def derInt (n : Nat) : List Nat :=
  2 :: (derContent n).length :: derContent n

/-- `ecdsa.util.sigencode_der (r, s)`: a DER SEQUENCE of the two integers
(single length octet; the bodies relevant here are at most 70 bytes). -/
def sigencodeDer (r s : Nat) : List Nat :=
  48 :: (derInt r ++ derInt s).length :: (derInt r ++ derInt s)

/-- Loop of `recoverPubkeyParameter` (transactions.py lines 347-352): try
`i = 0..3`, returning the first index whose recovered key equals the known
public key, and `None` when none matches. -/
def recoverPubkeyParameterGo (recover : Nat → List Nat) (pubkey : List Nat) :
    Nat → Nat → Option Nat
  | 0, _ => none
  | fuel + 1, i =>
    if recover i = pubkey then some i else recoverPubkeyParameterGo recover pubkey fuel (i + 1)

/-- `Signed_Transaction.recoverPubkeyParameter` (transactions.py lines
347-352). -/
def recoverPubkeyParameter (recover : Nat → List Nat) (pubkey : List Nat) : Option Nat :=
  recoverPubkeyParameterGo recover pubkey 4 0

/-- Outcome of the per-key signing loop: a packed 65-byte signature, the
`TypeError` raised by `i += 4` when `recoverPubkeyParameter` returned `None`,
or exhaustion of the modelled attempt stream (the Python loop would keep
drawing new attempts forever). -/
inductive SignResult : Type where
  | ok (sig : List Nat)
  | typeError
  | exhausted
deriving DecidableEq

/-- The `while 1` signing loop of `sign` (transactions.py lines 424-462) over
a stream of ECDSA attempts: DER-encode the attempt's `(r, s)`, read `lenR`
and `lenS` out of the DER bytes, retry unless both equal 32, then derive the
recovery parameter, add 4 (compressed) and 27 (compact), and pack
`header ‖ r ‖ s` with `r` and `s` as fixed 32-byte big-endian strings. -/
def signLoop (pubkey : List Nat) : List Attempt → SignResult
  | [] => .exhausted
  | a :: rest =>
    let sigder := sigencodeDer a.r a.s
    let lenR := sigder.getD 3 0
    let lenS := sigder.getD (5 + lenR) 0
    if lenR = 32 ∧ lenS = 32 then
      match recoverPubkeyParameter a.recover pubkey with
      | some i => .ok ((i + 4 + 27) :: (natToBE 32 a.r ++ natToBE 32 a.s))
      | none => .typeError
    else signLoop pubkey rest

/-- Errors raised by `sign` (transactions.py lines 393-402, 414, 451-456):
the two chain-descriptor checks, a failure while building the message
(`unhexlify` of the chain id or `bytes(self)`), the `TypeError` from a `None`
recovery parameter, and a failed canonical-signature search. -/
inductive SignErr : Type where
  | badChainArg
  | missingChainId
  | badMessage
  | recoveryTypeError
  | noCanonical
deriving DecidableEq

/-- The per-key loop of `sign` (transactions.py lines 419-464): run the
signing loop for each private key in order and collect the packed
signatures; any failure aborts `sign`. -/
def collectSigs (pubOf : String → List Nat) (attemptsOf : String → List Nat → List Attempt)
    (digest : List Nat) : List String → Except SignErr (List (List Nat))
  | [] => .ok []
  | w :: ws =>
    match signLoop (pubOf w) (attemptsOf w digest) with
    | .ok s =>
      match collectSigs pubOf attemptsOf digest ws with
      | .ok rest => .ok (s :: rest)
      | .error e => .error e
    | .typeError => .error .recoveryTypeError
    | .exhausted => .error .noCanonical

/-- The `chain` argument of `sign`: a string, a dict, or any other Python
value. -/
inductive ChainArg : Type where
  | strA (s : String)
  | dictA (d : List (String × String))
  | otherA
deriving DecidableEq

/-- Known networks (transactions.py lines 96-102). -/
def known_chains : List (String × List (String × String)) :=
  [("BTS", [("chain_id", ""), ("core_symbol", ""), ("prefix", "")]),
   ("GPH", [("chain_id", "b8d1603965b3eb1acba27e62ff59f74efa3154d43a4188d381088ac7cdf35539"),
            ("core_symbol", "CORE"), ("prefix", "GPH")])]

/-- Chain resolution of `sign` (transactions.py lines 394-400): a string that
names a known chain resolves to its parameters, a dict is taken as-is, and
anything else (including an unknown chain name) raises. -/
def resolveChain : ChainArg → Except SignErr (List (String × String))
  | .strA s =>
    match lookupAssoc known_chains s with
    | some params => .ok params
    | none => .error .badChainArg
  | .dictA d => .ok d
  | .otherA => .error .badChainArg

/-- Deduplication of the wif keys preserving first-seen order
(transactions.py lines 405-406). -/
def pydedup (xs : List String) : List String :=
  xs.foldl (fun acc x => if x ∈ acc then acc else acc ++ [x]) []

/-- The message `sign` hashes (transactions.py line 414):
`unhexlify(chain_id) + bytes(self)`, with the transaction serialized in its
current state (`signatures` still the `Void` placeholder). -/
def signMessage? (chainid : String) (tx : FieldList) : Option (List Nat) :=
  match unhexlify? chainid, fieldsBytes? tx with
  | some cid, some body => some (cid ++ body)
  | _, _ => none

/-- Packed signatures to the `Array(sigs)` stored into the transaction
(transactions.py lines 464-466). -/
def toSigArray : List (List Nat) → ValueList
  | [] => .nil
  | s :: rest => .cons (.signatureV s) (toSigArray rest)

/-- `Signed_Transaction.sign` (transactions.py lines 393-467), with the
external collaborators passed as oracles: `pubOf` maps a wif key to
`sk.get_verifying_key().to_string()`, `attemptsOf` maps a wif key and the
digest to the stream of ECDSA signing attempts, and `sha256` is the hash.
The first component is the raised error, if any; the second the transaction
fields, mutated only on success (`self.data["signatures"] = Array(sigs)`). -/
def sign (tx : FieldList) (chain : ChainArg) (wifkeys : List String)
    (pubOf : String → List Nat) (attemptsOf : String → List Nat → List Attempt)
    (sha256 : List Nat → List Nat) : Option SignErr × FieldList :=
  match resolveChain chain with
  | .error e => (some e, tx)
  | .ok chain_params =>
    match lookupAssoc chain_params "chain_id" with
    | none => (some .missingChainId, tx)
    | some chainid =>
      match signMessage? chainid tx with
      | none => (some .badMessage, tx)
      | some message =>
        match collectSigs pubOf attemptsOf (sha256 message) (pydedup wifkeys) with
        | .error e => (some e, tx)
        | .ok sigs => (none, setField tx "signatures" (.arrayV (toSigArray sigs)))

/-! Helper lemmas about the varint codec. -/

theorem varintAux_congr : ∀ n f g : Nat, n ≤ f → n ≤ g → varintAux f n = varintAux g n := by
  intro n
  induction n using Nat.strong_induction_on with
  | _ n ih =>
    intro f g hf hg
    by_cases h : 0x80 ≤ n
    · obtain ⟨f', rfl⟩ : ∃ f', f = f' + 1 := ⟨f - 1, by omega⟩
      obtain ⟨g', rfl⟩ : ∃ g', g = g' + 1 := ⟨g - 1, by omega⟩
      have hlt : n >>> 7 < n := by
        rw [Nat.shiftRight_eq_div_pow]
        exact Nat.div_lt_self (by omega) (by norm_num)
      have hrec := ih (n >>> 7) hlt f' g'
        (by rw [Nat.shiftRight_eq_div_pow]; omega)
        (by rw [Nat.shiftRight_eq_div_pow]; omega)
      simp [varintAux, h, hrec]
    · cases f with
      | zero => cases g with
        | zero => rfl
        | succ g' => simp [varintAux, h]
      | succ f' => cases g with
        | zero => simp [varintAux, h]
        | succ g' => simp [varintAux, h]

theorem varint_eq (n : Nat) :
    varint n = if 0x80 ≤ n then (n % 0x80 + 0x80) :: varint (n >>> 7) else [n] := by
  by_cases h : 0x80 ≤ n
  · obtain ⟨n', rfl⟩ : ∃ n', n = n' + 1 := ⟨n - 1, by omega⟩
    have hle : (n' + 1) >>> 7 ≤ n' := by
      rw [Nat.shiftRight_eq_div_pow]
      have := Nat.div_lt_self (n := n' + 1) (by omega) (show 1 < 2 ^ 7 by norm_num)
      omega
    simp only [varint, varintAux, h, if_true]
    exact congrArg _ (varintAux_congr _ _ _ hle le_rfl)
  · cases n with
    | zero => simp [varint, varintAux, h]
    | succ n' => simp [varint, varintAux, h]

theorem sevenbit_recombine (n shift : Nat) :
    ((n % 0x80) <<< shift) ||| ((n >>> 7) <<< (shift + 7)) = n <<< shift := by
  apply Nat.eq_of_testBit_eq
  intro j
  have h128 : (0x80 : Nat) = 2 ^ 7 := by norm_num
  simp only [Nat.testBit_or, Nat.testBit_shiftLeft, Nat.testBit_shiftRight, h128,
    Nat.testBit_mod_two_pow]
  rcases Nat.lt_or_ge j shift with hj | hj
  · simp [Nat.not_le.mpr hj, show ¬ (shift + 7 ≤ j) by omega]
  · rcases Nat.lt_or_ge j (shift + 7) with hj7 | hj7
    · simp [Nat.le_of_lt, hj, show ¬ (shift + 7 ≤ j) by omega, show j - shift < 7 by omega]
    · have : 7 + (j - (shift + 7)) = j - shift := by omega
      simp [hj, hj7, this, show ¬ (j - shift < 7) by omega]

theorem and_0x7f (b : Nat) : b &&& 0x7f = b % 0x80 := by
  have : (0x7f : Nat) = 2 ^ 7 - 1 := by norm_num
  rw [this, Nat.and_pow_two_sub_one_eq_mod]

theorem and_0x80_eq_zero {b : Nat} (h : b < 0x80) : b &&& 0x80 = 0 := by
  apply Nat.eq_of_testBit_eq
  intro j
  have h128 : (0x80 : Nat) = 2 ^ 7 := by norm_num
  simp only [Nat.testBit_and, Nat.zero_testBit, h128, Nat.testBit_two_pow]
  rcases eq_or_ne (7 : Nat) j with rfl | hne
  · simp [Nat.testBit_lt_two_pow (show b < 2 ^ 7 by omega)]
  · simp [hne]

theorem and_0x80_ne_zero {m : Nat} (h : m < 0x80) : (m + 0x80) &&& 0x80 ≠ 0 := by
  intro hcontra
  have h128 : (0x80 : Nat) = 2 ^ 7 := by norm_num
  have h7 : ((m + 0x80) &&& 0x80).testBit 7 = true := by
    simp only [Nat.testBit_and, h128, Nat.testBit_two_pow_self, Bool.and_true]
    have : (2 : Nat) ^ 7 + m = m + 2 ^ 7 := by omega
    rw [← this, Nat.testBit_two_pow_add_eq,
      Nat.testBit_lt_two_pow (show m < 2 ^ 7 by omega)]
    rfl
  rw [hcontra] at h7
  simp at h7

theorem varintdecodeSpecAux_varint (n : Nat) :
    ∀ shift acc, varintdecodeSpecAux (varint n) shift acc = acc ||| (n <<< shift) := by
  induction n using Nat.strong_induction_on with
  | _ n ih =>
    intro shift acc
    rw [varint_eq]
    by_cases h : 0x80 ≤ n
    · have hlt : n >>> 7 < n := by
        rw [Nat.shiftRight_eq_div_pow]
        exact Nat.div_lt_self (by omega) (by norm_num)
      simp only [h, if_true, varintdecodeSpecAux, and_0x7f]
      have hmod : n % 0x80 < 0x80 := Nat.mod_lt _ (by norm_num)
      rw [if_neg (and_0x80_ne_zero hmod), ih (n >>> 7) hlt,
        show (n % 0x80 + 0x80) % 0x80 = n % 0x80 by omega,
        Nat.or_assoc, sevenbit_recombine]
    · simp only [h, if_false, varintdecodeSpecAux, and_0x7f]
      rw [if_pos (and_0x80_eq_zero (by omega)),
        Nat.mod_eq_of_lt (by omega)]

theorem varint_roundtrip (n : Nat) : varintdecodeSpec (varint n) = n := by
  rw [varintdecodeSpec, varintdecodeSpecAux_varint, Nat.zero_or, Nat.shiftLeft_zero]

/-! Helper lemmas about the signer. -/

theorem natToLE_length : ∀ w n, (natToLE w n).length = w := by
  intro w
  induction w with
  | zero => intro n; rfl
  | succ w ih => intro n; simp [natToLE, ih]

theorem natToBE_length (w n : Nat) : (natToBE w n).length = w := by
  simp [natToBE, natToLE_length]

theorem recoverGo_some (recover : Nat → List Nat) (pubkey : List Nat) :
    ∀ fuel start i, recoverPubkeyParameterGo recover pubkey fuel start = some i ↔
      (start ≤ i ∧ i < start + fuel ∧ recover i = pubkey ∧
        ∀ j, start ≤ j → j < i → recover j ≠ pubkey) := by
  intro fuel
  induction fuel with
  | zero =>
    intro start i
    simp only [recoverPubkeyParameterGo]
    constructor
    · intro h; cases h
    · intro ⟨h1, h2, _⟩; omega
  | succ fuel ih =>
    intro start i
    simp only [recoverPubkeyParameterGo]
    by_cases h : recover start = pubkey
    · simp only [h, if_true]
      constructor
      · rintro ⟨rfl⟩
        exact ⟨le_rfl, by omega, h, fun j hj1 hj2 => by omega⟩
      · intro ⟨h1, _, h3, h4⟩
        rcases Nat.eq_or_lt_of_le h1 with rfl | hlt
        · rfl
        · exact absurd h (h4 start le_rfl hlt)
    · simp only [h, if_false, ih]
      constructor
      · intro ⟨h1, h2, h3, h4⟩
        refine ⟨by omega, by omega, h3, fun j hj1 hj2 => ?_⟩
        rcases Nat.eq_or_lt_of_le hj1 with rfl | hlt
        · exact h
        · exact h4 j hlt hj2
      · intro ⟨h1, h2, h3, h4⟩
        have hne : start ≠ i := by rintro rfl; exact h h3
        exact ⟨by omega, by omega, h3, fun j hj1 hj2 => h4 j (by omega) hj2⟩

theorem recoverPubkeyParameter_some {recover : Nat → List Nat} {pubkey : List Nat} {i : Nat} :
    recoverPubkeyParameter recover pubkey = some i ↔
      (i < 4 ∧ recover i = pubkey ∧ ∀ j, j < i → recover j ≠ pubkey) := by
  rw [recoverPubkeyParameter, recoverGo_some]
  constructor
  · intro ⟨_, h2, h3, h4⟩
    exact ⟨by omega, h3, fun j hj => h4 j (Nat.zero_le j) hj⟩
  · intro ⟨h1, h2, h3⟩
    exact ⟨Nat.zero_le i, by omega, h2, fun j _ hj => h3 j hj⟩

theorem signLoop_ok {pubkey : List Nat} :
    ∀ {attempts : List Attempt} {bs : List Nat}, signLoop pubkey attempts = .ok bs →
      ∃ a ∈ attempts, ∃ i,
        recoverPubkeyParameter a.recover pubkey = some i ∧
        (sigencodeDer a.r a.s).getD 3 0 = 32 ∧
        (sigencodeDer a.r a.s).getD (5 + 32) 0 = 32 ∧
        bs = (i + 4 + 27) :: (natToBE 32 a.r ++ natToBE 32 a.s) := by
  intro attempts
  induction attempts with
  | nil => intro bs h; cases h
  | cons a rest ih =>
    intro bs h
    rw [signLoop] at h
    by_cases hc : (sigencodeDer a.r a.s).getD 3 0 = 32 ∧
        (sigencodeDer a.r a.s).getD (5 + (sigencodeDer a.r a.s).getD 3 0) 0 = 32
    · rw [if_pos hc] at h
      rcases hrec : recoverPubkeyParameter a.recover pubkey with _ | i
      · rw [hrec] at h; cases h
      · rw [hrec] at h
        cases h
        exact ⟨a, List.mem_cons_self a rest, i, hrec, hc.1, hc.1 ▸ hc.2, rfl⟩
    · rw [if_neg hc] at h
      obtain ⟨a', ha', rest'⟩ := ih h
      exact ⟨a', List.mem_cons_of_mem a ha', rest'⟩

theorem collectSigs_ok_mem {pubOf : String → List Nat}
    {attemptsOf : String → List Nat → List Attempt} {digest : List Nat} :
    ∀ {ws : List String} {sigs : List (List Nat)},
      collectSigs pubOf attemptsOf digest ws = .ok sigs →
      ∀ bs ∈ sigs, ∃ w ∈ ws, signLoop (pubOf w) (attemptsOf w digest) = .ok bs := by
  intro ws
  induction ws with
  | nil =>
    intro sigs h bs hbs
    cases h
    cases hbs
  | cons w ws ih =>
    intro sigs h bs hbs
    rw [collectSigs] at h
    rcases hloop : signLoop (pubOf w) (attemptsOf w digest) with s | _ | _ <;> rw [hloop] at h
    · rcases hrest : collectSigs pubOf attemptsOf digest ws with e | rest <;> rw [hrest] at h
      · cases h
      · cases h
        rcases List.mem_cons.mp hbs with rfl | hmem
        · exact ⟨w, List.mem_cons_self w ws, hloop⟩
        · obtain ⟨w', hw', hsig⟩ := ih hrest bs hmem
          exact ⟨w', List.mem_cons_of_mem w hw', hsig⟩
    · cases h
    · cases h

theorem pydedup_subset {x : String} {xs : List String} (h : x ∈ pydedup xs) : x ∈ xs := by
  have key : ∀ (ys : List String) (acc : List String),
      x ∈ ys.foldl (fun acc y => if y ∈ acc then acc else acc ++ [y]) acc →
      x ∈ acc ∨ x ∈ ys := by
    intro ys
    induction ys with
    | nil => intro acc h; exact Or.inl h
    | cons y ys ih =>
      intro acc h
      rcases ih _ h with hacc | hys
      · by_cases hy : y ∈ acc
        · simp only [hy, if_true] at hacc; exact Or.inl hacc
        · simp only [hy, if_false] at hacc
          rcases List.mem_append.mp hacc with h1 | h1
          · exact Or.inl h1
          · simp only [List.mem_singleton] at h1
            exact Or.inr (h1 ▸ List.mem_cons_self y ys)
      · exact Or.inr (List.mem_cons_of_mem y hys)
  rcases key xs [] h with h0 | h0
  · cases h0
  · exact h0

theorem lookupField_setField :
    ∀ (tx : FieldList) (n : String) (v : Value), lookupField (setField tx n v) n = some v
  | .nil, n, v => by simp [setField, lookupField]
  | .cons m w rest, n, v => by
    by_cases h : m = n
    · simp [setField, lookupField, h]
    · simp [setField, lookupField, h, lookupField_setField rest n v]

/-! Claim theorems. -/

/-- C1: for every signature appended to the transaction by `sign`, the result
is a 65-byte blob `header ‖ r ‖ s` whose DER form has lenR = lenS = 32 and
whose header byte is in 31..34: the recovery index i ∈ 0..3 — the first index
whose recovered key equals the signer's — plus 4 (compressed) and 27
(compact). -/
theorem c1_sign_canonical_signatures
    (tx : FieldList) (chain : ChainArg) (wifkeys : List String)
    (pubOf : String → List Nat) (attemptsOf : String → List Nat → List Attempt)
    (sha256 : List Nat → List Nat) (tx' : FieldList)
    (h : sign tx chain wifkeys pubOf attemptsOf sha256 = (none, tx')) :
    ∃ sigs, lookupField tx' "signatures" = some (.arrayV (toSigArray sigs)) ∧
      ∀ bs ∈ sigs,
        bs.length = 65 ∧ 31 ≤ bs.headD 0 ∧ bs.headD 0 ≤ 34 ∧
        ∃ wif ∈ wifkeys, ∃ digest, ∃ a ∈ attemptsOf wif digest, ∃ i,
          recoverPubkeyParameter a.recover (pubOf wif) = some i ∧ i < 4 ∧
          (sigencodeDer a.r a.s).getD 3 0 = 32 ∧
          (sigencodeDer a.r a.s).getD (5 + 32) 0 = 32 ∧
          bs = (i + 4 + 27) :: (natToBE 32 a.r ++ natToBE 32 a.s) := by
  unfold sign at h
  split at h
  · cases h
  · split at h
    · cases h
    · split at h
      · cases h
      · split at h
        · cases h
        · rename_i sigs hsigs
          injection h with h1 h2
          subst h2
          refine ⟨sigs, by rw [lookupField_setField], fun bs hbs => ?_⟩
          obtain ⟨w, hw, hloop⟩ := collectSigs_ok_mem hsigs bs hbs
          obtain ⟨a, ha, i, hrec, hlenR, hlenS, rfl⟩ := signLoop_ok hloop
          have hi : i < 4 := (recoverPubkeyParameter_some.mp hrec).1
          refine ⟨?_, ?_, ?_, w, pydedup_subset hw, _, a, ha, i, hrec, hi, hlenR, hlenS, rfl⟩
          · simp [List.length_append, natToBE_length]
          · simp only [List.headD_cons]; omega
          · simp only [List.headD_cons]; omega

/-- Witness for C1: a concrete successful signing run with one key. -/
theorem c1_sign_canonical_signatures_witness :
    ∃ sigs, lookupField
        (sign (Signed_Transaction 0 0 "1970-01-01T00:00:00" .nil)
          (.dictA [("chain_id", "")]) ["k"] (fun _ => [1])
          (fun _ _ => [⟨2 ^ 248, 2 ^ 248, fun _ => [1]⟩]) (fun _ => [])).2 "signatures" =
      some (.arrayV (toSigArray sigs)) ∧
      ∀ bs ∈ sigs,
        bs.length = 65 ∧ 31 ≤ bs.headD 0 ∧ bs.headD 0 ≤ 34 ∧
        ∃ wif ∈ ["k"], ∃ digest,
          ∃ a ∈ (fun (_ : String) (_ : List Nat) => [(⟨2 ^ 248, 2 ^ 248, fun _ => [1]⟩ : Attempt)]) wif digest,
          ∃ i, recoverPubkeyParameter a.recover ((fun _ => [1]) wif) = some i ∧ i < 4 ∧
            (sigencodeDer a.r a.s).getD 3 0 = 32 ∧
            (sigencodeDer a.r a.s).getD (5 + 32) 0 = 32 ∧
            bs = (i + 4 + 27) :: (natToBE 32 a.r ++ natToBE 32 a.s) :=
  c1_sign_canonical_signatures (Signed_Transaction 0 0 "1970-01-01T00:00:00" .nil)
    (.dictA [("chain_id", "")]) ["k"] (fun _ => [1])
    (fun _ _ => [⟨2 ^ 248, 2 ^ 248, fun _ => [1]⟩]) (fun _ => []) _ (by rfl)

/-- C3: the claimed roundtrip is right as specified, but the code breaks it:
under the repository's Python 3, `ord(c)` in `varintdecode` raises
`TypeError` on the first byte, so `varintdecode (varint n)` raises for every
n — shown at the failing input n = 0 and for every non-empty byte string —
while the decoder as the spec describes it does return n for every n in
[0, 2^64). -/
theorem c3_varintdecode_raises :
    varintdecode (varint 0) = none ∧
    (∀ data : List Nat, data ≠ [] → varintdecode data = none) ∧
    (∀ n : Nat, n < 2 ^ 64 → varintdecodeSpec (varint n) = n) := by
  refine ⟨rfl, ?_, fun n _ => varint_roundtrip n⟩
  intro data hne
  cases data with
  | nil => exact absurd rfl hne
  | cons c rest => rfl

/-- Witness for C3 at the encoding of 300 and at a non-empty input. -/
theorem c3_varintdecode_raises_witness :
    varintdecode [0x80, 0x01] = none ∧ varintdecodeSpec (varint 300) = 300 :=
  ⟨c3_varintdecode_raises.2.1 [0x80, 0x01] (by decide),
   c3_varintdecode_raises.2.2 300 (by norm_num)⟩

/-- C5 amended: the recovery parameter is found by trying i from 0 to 3 and
taking the first i whose recovered public key equals the signer's known
public key; but if no i in 0..3 matches, `recoverPubkeyParameter` returns
`None` and the signing loop raises a `TypeError` on `i += 4` instead of
discarding the attempt and retrying. -/
theorem c5_recovery_parameter_behaviour
    (recover : Nat → List Nat) (pubkey : List Nat) (i : Nat) :
    (recoverPubkeyParameter recover pubkey = some i ↔
      (i < 4 ∧ recover i = pubkey ∧ ∀ j, j < i → recover j ≠ pubkey)) ∧
    (∀ (a : Attempt) (rest : List Attempt),
      (sigencodeDer a.r a.s).getD 3 0 = 32 →
      (sigencodeDer a.r a.s).getD (5 + 32) 0 = 32 →
      recoverPubkeyParameter a.recover pubkey = none →
      signLoop pubkey (a :: rest) = .typeError) := by
  refine ⟨recoverPubkeyParameter_some, ?_⟩
  intro a rest h1 h2 h3
  rw [signLoop]
  rw [h1, if_pos ⟨rfl, h2⟩, h3]

/-- Witness for C5 (amended): a canonical attempt whose recovery fails
produces the `TypeError` outcome. -/
theorem c5_recovery_parameter_behaviour_witness :
    signLoop [1] [⟨2 ^ 248, 2 ^ 248, fun _ => [9]⟩] = SignResult.typeError :=
  (c5_recovery_parameter_behaviour (fun _ => [9]) [1] 0).2
    ⟨2 ^ 248, 2 ^ 248, fun _ => [9]⟩ [] (by decide) (by decide) (by decide)

/-- C5 counterexample: with a canonical first attempt whose recovered keys
never match and a second attempt that would succeed, the signing loop ends in
the `TypeError` outcome — the attempt is not discarded and retried. -/
theorem c5_counterexample :
    signLoop [1] [⟨2 ^ 248, 2 ^ 248, fun _ => [9]⟩, ⟨2 ^ 248, 2 ^ 248, fun _ => [1]⟩] =
      SignResult.typeError ∧
    signLoop [1] [⟨2 ^ 248, 2 ^ 248, fun _ => [1]⟩] =
      SignResult.ok ((0 + 4 + 27) :: (natToBE 32 (2 ^ 248) ++ natToBE 32 (2 ^ 248))) :=
  ⟨rfl, rfl⟩

/-- Helper: a varint encoding is never empty. -/
theorem varint_ne_nil (n : Nat) : varint n ≠ [] := by
  rw [varint_eq]
  split <;> simp

/-- C10: a composite field holding a bare Python string is encoded by
`GrapheneObject.__bytes__` as its UTF-8 bytes with no varint length prefix,
while the `String` codec prefixes a varint length, so the two wrappers of the
same text always encode differently (a bare string is not even encodable
outside a composite: `bytes(str)` raises). -/
theorem c10_raw_string_fields (name s : String) :
    fieldsBytes? (.cons name (.rawStr s) .nil) = some (utf8 s.data) ∧
    bytes? (.stringV s) = some (varint s.data.length ++ utf8 s.data) ∧
    fieldsBytes? (.cons name (.stringV s) .nil) =
      some (varint s.data.length ++ utf8 s.data) ∧
    bytes? (.rawStr s) = none ∧
    fieldsBytes? (.cons name (.rawStr s) .nil) ≠
      fieldsBytes? (.cons name (.stringV s) .nil) := by
  refine ⟨by simp [fieldsBytes?], by simp [bytes?], by simp [fieldsBytes?, bytes?],
    by simp [bytes?], ?_⟩
  intro h
  simp only [fieldsBytes?, bytes?] at h
  have hlen := congrArg (fun o => (Option.getD o []).length) h
  simp only [Option.getD_some, List.append_nil, List.length_append] at hlen
  have hnil : varint s.data.length = [] := by
    have : (varint s.data.length).length = 0 := by omega
    exact List.length_eq_zero.mp this
  exact varint_ne_nil _ hnil

/-- Witness for C10 at a concrete field name and text. -/
theorem c10_raw_string_fields_witness :
    fieldsBytes? (.cons "x" (.rawStr "ab") .nil) = some (utf8 "ab".data) ∧
    bytes? (.stringV "ab") = some (varint "ab".data.length ++ utf8 "ab".data) ∧
    fieldsBytes? (.cons "x" (.stringV "ab") .nil) =
      some (varint "ab".data.length ++ utf8 "ab".data) ∧
    bytes? (.rawStr "ab") = none ∧
    fieldsBytes? (.cons "x" (.rawStr "ab") .nil) ≠
      fieldsBytes? (.cons "x" (.stringV "ab") .nil) :=
  c10_raw_string_fields "x" "ab"

/-- Helper: serialization of a freshly constructed signed transaction. -/
theorem signedTx_bytes (refNum refPfx : Nat) (e : String) (ops : ValueList)
    (t : Int) (obs : List Nat)
    (h1 : refNum < 2 ^ 16) (h2 : refPfx < 2 ^ 32)
    (h3 : parseUTC? e = some t) (h4 : 0 ≤ t) (h5 : t < 2 ^ 32)
    (h6 : listBytes? ops = some obs) :
    fieldsBytes? (Signed_Transaction refNum refPfx e ops) =
      some (natToLE 2 refNum ++ natToLE 4 refPfx ++ natToLE 4 t.toNat ++
        (varint ops.length ++ obs) ++ varint 0 ++ []) := by
  simp only [Signed_Transaction, fieldsBytes?, bytes?, h3, h6, listBytes?]
  rw [if_pos h1, if_pos h2, if_pos ⟨h4, h5⟩]
  simp [ValueList.length, List.append_assoc]

/-- Helper: a field whose value encodes as `b` contributes exactly `b`. -/
theorem fieldsBytes?_cons_of_bytes {v : Value} {b : List Nat} (n : String) (rest : FieldList)
    (h : bytes? v = some b) :
    fieldsBytes? (.cons n v rest) =
      match fieldsBytes? rest with
      | some r => some (b ++ r)
      | none => none := by
  cases v <;>
    first
      | (simp only [fieldsBytes?]; rw [h]; cases fieldsBytes? rest <;> rfl)
      | (simp only [bytes?] at h; cases h)

/-- C2: `sign` computes the digest it signs as SHA-256 of the hex-decoded
chain id concatenated with the transaction's wire bytes serialized before
`signatures` is populated; the `Void` signatures placeholder contributes zero
bytes (the trailing `++ []`). -/
theorem c2_sign_digest (sha256 : List Nat → List Nat) (cid : String) (cidB : List Nat)
    (refNum refPfx : Nat) (e : String) (ops : ValueList) (t : Int) (obs : List Nat)
    (hcid : unhexlify? cid = some cidB)
    (h1 : refNum < 2 ^ 16) (h2 : refPfx < 2 ^ 32)
    (h3 : parseUTC? e = some t) (h4 : 0 ≤ t) (h5 : t < 2 ^ 32)
    (h6 : listBytes? ops = some obs) :
    bytes? .voidV = some [] ∧
    signMessage? cid (Signed_Transaction refNum refPfx e ops) =
      some (cidB ++ (natToLE 2 refNum ++ natToLE 4 refPfx ++ natToLE 4 t.toNat ++
        (varint ops.length ++ obs) ++ varint 0 ++ [])) ∧
    (signMessage? cid (Signed_Transaction refNum refPfx e ops)).map sha256 =
      some (sha256 (cidB ++ (natToLE 2 refNum ++ natToLE 4 refPfx ++ natToLE 4 t.toNat ++
        (varint ops.length ++ obs) ++ varint 0 ++ []))) := by
  have hbody := signedTx_bytes refNum refPfx e ops t obs h1 h2 h3 h4 h5 h6
  refine ⟨rfl, ?_, ?_⟩
  · rw [signMessage?, hcid, hbody]
  · rw [signMessage?, hcid, hbody]
    rfl

/-- Witness for C2 on the GPH chain id and an empty transaction. -/
theorem c2_sign_digest_witness :
    bytes? .voidV = some [] ∧
    signMessage? "b8d1603965b3eb1acba27e62ff59f74efa3154d43a4188d381088ac7cdf35539"
        (Signed_Transaction 1 2 "2016-01-01T00:00:00" .nil) =
      some ([0xb8, 0xd1, 0x60, 0x39, 0x65, 0xb3, 0xeb, 0x1a, 0xcb, 0xa2, 0x7e, 0x62,
          0xff, 0x59, 0xf7, 0x4e, 0xfa, 0x31, 0x54, 0xd4, 0x3a, 0x41, 0x88, 0xd3,
          0x81, 0x08, 0x8a, 0xc7, 0xcd, 0xf3, 0x55, 0x39] ++
        (natToLE 2 1 ++ natToLE 4 2 ++ natToLE 4 (1451606400 : Int).toNat ++
          (varint ValueList.nil.length ++ []) ++ varint 0 ++ [])) ∧
    (signMessage? "b8d1603965b3eb1acba27e62ff59f74efa3154d43a4188d381088ac7cdf35539"
        (Signed_Transaction 1 2 "2016-01-01T00:00:00" .nil)).map List.reverse =
      some (List.reverse ([0xb8, 0xd1, 0x60, 0x39, 0x65, 0xb3, 0xeb, 0x1a, 0xcb, 0xa2,
          0x7e, 0x62, 0xff, 0x59, 0xf7, 0x4e, 0xfa, 0x31, 0x54, 0xd4, 0x3a, 0x41, 0x88,
          0xd3, 0x81, 0x08, 0x8a, 0xc7, 0xcd, 0xf3, 0x55, 0x39] ++
        (natToLE 2 1 ++ natToLE 4 2 ++ natToLE 4 (1451606400 : Int).toNat ++
          (varint ValueList.nil.length ++ []) ++ varint 0 ++ []))) :=
  c2_sign_digest List.reverse
    "b8d1603965b3eb1acba27e62ff59f74efa3154d43a4188d381088ac7cdf35539"
    [0xb8, 0xd1, 0x60, 0x39, 0x65, 0xb3, 0xeb, 0x1a, 0xcb, 0xa2, 0x7e, 0x62,
     0xff, 0x59, 0xf7, 0x4e, 0xfa, 0x31, 0x54, 0xd4, 0x3a, 0x41, 0x88, 0xd3,
     0x81, 0x08, 0x8a, 0xc7, 0xcd, 0xf3, 0x55, 0x39] 1 2
    "2016-01-01T00:00:00" .nil 1451606400 [] (by decide) (by decide) (by decide)
    (by decide) (by decide) (by decide) (by decide)

/-- C6: a signed transaction serializes as the concatenation, in declaration
order with no padding or separators, of `ref_block_num` (LE u16),
`ref_block_prefix` (LE u32), `expiration` (u32 point-in-time), the
operations array (varint count, then elements), the empty extensions set
(varint 0), and the signatures field (zero bytes for the `Void` placeholder,
the encoding of whatever value the field holds otherwise). -/
theorem c6_signed_transaction_layout (refNum refPfx : Nat) (e : String) (ops : ValueList)
    (t : Int) (obs : List Nat)
    (h1 : refNum < 2 ^ 16) (h2 : refPfx < 2 ^ 32)
    (h3 : parseUTC? e = some t) (h4 : 0 ≤ t) (h5 : t < 2 ^ 32)
    (h6 : listBytes? ops = some obs) :
    fieldsBytes? (Signed_Transaction refNum refPfx e ops) =
      some (natToLE 2 refNum ++ natToLE 4 refPfx ++ natToLE 4 t.toNat ++
        (varint ops.length ++ obs) ++ varint 0 ++ []) ∧
    ∀ sv sb, bytes? sv = some sb →
      fieldsBytes? (setField (Signed_Transaction refNum refPfx e ops) "signatures" sv) =
        some (natToLE 2 refNum ++ natToLE 4 refPfx ++ natToLE 4 t.toNat ++
          (varint ops.length ++ obs) ++ varint 0 ++ sb) := by
  refine ⟨signedTx_bytes refNum refPfx e ops t obs h1 h2 h3 h4 h5 h6, ?_⟩
  intro sv sb hsv
  have hset : setField (Signed_Transaction refNum refPfx e ops) "signatures" sv =
      .cons "ref_block_num" (.uint16 refNum) (.cons "ref_block_prefix" (.uint32 refPfx)
        (.cons "expiration" (.pointInTime e) (.cons "operations" (.arrayV ops)
          (.cons "extensions" (.arrayV .nil) (.cons "signatures" sv .nil))))) := by
    simp [Signed_Transaction, setField]
  rw [hset,
    fieldsBytes?_cons_of_bytes _ _ (show bytes? (.uint16 refNum) = some (natToLE 2 refNum)
      by simp only [bytes?]; rw [if_pos h1]),
    fieldsBytes?_cons_of_bytes _ _ (show bytes? (.uint32 refPfx) = some (natToLE 4 refPfx)
      by simp only [bytes?]; rw [if_pos h2]),
    fieldsBytes?_cons_of_bytes _ _ (show bytes? (.pointInTime e) = some (natToLE 4 t.toNat)
      by simp only [bytes?, h3]; rw [if_pos ⟨h4, h5⟩]),
    fieldsBytes?_cons_of_bytes _ _ (show bytes? (.arrayV ops) = some (varint ops.length ++ obs)
      by simp only [bytes?, h6]),
    fieldsBytes?_cons_of_bytes _ _ (show bytes? (.arrayV .nil) = some (varint 0 ++ [])
      by simp only [bytes?, listBytes?, ValueList.length]),
    fieldsBytes?_cons_of_bytes _ _ hsv]
  simp [fieldsBytes?, List.append_assoc]

/-- Witness for C6 at a concrete transaction. -/
theorem c6_signed_transaction_layout_witness :
    fieldsBytes? (Signed_Transaction 1 2 "2016-01-01T00:00:00" .nil) =
      some (natToLE 2 1 ++ natToLE 4 2 ++ natToLE 4 (1451606400 : Int).toNat ++
        (varint ValueList.nil.length ++ []) ++ varint 0 ++ []) ∧
    ∀ sv sb, bytes? sv = some sb →
      fieldsBytes? (setField (Signed_Transaction 1 2 "2016-01-01T00:00:00" .nil)
          "signatures" sv) =
        some (natToLE 2 1 ++ natToLE 4 2 ++ natToLE 4 (1451606400 : Int).toNat ++
          (varint ValueList.nil.length ++ []) ++ varint 0 ++ sb) :=
  c6_signed_transaction_layout 1 2 "2016-01-01T00:00:00" .nil 1451606400 []
    (by decide) (by decide) (by decide) (by decide) (by decide) (by decide)

/-- C4 counterexample: a `Transfer` constructed with no memo — the default
argument `_memo=None` — constructs successfully, but serializing it fails
(`Optional.__bytes__` evaluates `bytes(None)`, a `TypeError`), so the memo
field does not serialize to `[00]` under the literal reading of the claim. -/
theorem c4_counterexample :
    ((Asset 10 "1.3.0").bind fun feeFields =>
      (Transfer (.objV feeFields) "1.2.0" "1.2.1" (.objV feeFields) .pyNone).map
        fieldsBytes?) = .ok none := rfl

/-- C4 amended: for every optional wrapping a value whose encoding succeeds,
an empty inner encoding (the code's and spec §4.1's notion of absence) gives
the single byte `[0x00]` and a non-empty inner encoding `bs` gives
`[0x01] ‖ bs`; the memo field of a `Transfer` constructed with an empty
`Memo` (no message) serializes to `[00]`, as the full transfer encoding
shows.  (A `Transfer` left with the default memo `None` instead fails to
serialize, see the counterexample.) -/
theorem c4_optional_encoding (v : Value) (bs : List Nat) (h : bytes? v = some bs) :
    bytes? (.optionalV v) = some (if bs = [] then [0x00] else 0x01 :: bs) ∧
    bytes? (.optionalV MemoEmpty) = some [0x00] ∧
    ((Asset 10 "1.3.0").bind fun feeFields =>
      (Transfer (.objV feeFields) "1.2.0" "1.2.1" (.objV feeFields) MemoEmpty).map
        fieldsBytes?) =
      .ok (some (([10, 0, 0, 0, 0, 0, 0, 0] ++ [0]) ++ [0] ++ [1] ++
        ([10, 0, 0, 0, 0, 0, 0, 0] ++ [0]) ++ [0x00] ++ [0])) := by
  refine ⟨?_, rfl, rfl⟩
  simp only [bytes?, h]
  cases bs <;> simp

/-- Witness for C4 (amended) at a present inner value. -/
theorem c4_optional_encoding_witness :
    bytes? (.optionalV (.uint8 5)) = some (if [5] = ([] : List Nat) then [0x00] else 0x01 :: [5]) ∧
    bytes? (.optionalV MemoEmpty) = some [0x00] ∧
    ((Asset 10 "1.3.0").bind fun feeFields =>
      (Transfer (.objV feeFields) "1.2.0" "1.2.1" (.objV feeFields) MemoEmpty).map
        fieldsBytes?) =
      .ok (some (([10, 0, 0, 0, 0, 0, 0, 0] ++ [0]) ++ [0] ++ [1] ++
        ([10, 0, 0, 0, 0, 0, 0, 0] ++ [0]) ++ [0x00] ++ [0])) :=
  c4_optional_encoding (.uint8 5) [5] (by decide)

/-- C7: the code inverts the claim.  `GrapheneObject.__json__` skips a field
exactly when it is an `Optional` whose `isempty()` is true, but `isempty`
returns `bool(self.data)` — true for PRESENT data.  Evaluating the key
selection at a present memo (omitted despite the claim) and at an absent
`None` memo (kept despite the claim) exhibits the divergence. -/
theorem c7_json_optional_inverted :
    jsonKeys (.cons "memo" (.optionalV (.objV (.cons "nonce" (.uint64 5) .nil))) .nil) = [] ∧
    jsonKeys (.cons "memo" (.optionalV .pyNone) .nil) = ["memo"] ∧
    pyTruthy (.objV (.cons "nonce" (.uint64 5) .nil)) = true ∧
    pyTruthy .pyNone = false := by decide

/-- The only errors the per-key signature loop can raise. -/
theorem collectSigs_error_kind {pubOf : String → List Nat}
    {attemptsOf : String → List Nat → List Attempt} {digest : List Nat} :
    ∀ {ws : List String} {e : SignErr},
      collectSigs pubOf attemptsOf digest ws = .error e →
      e = .recoveryTypeError ∨ e = .noCanonical := by
  intro ws
  induction ws with
  | nil => intro e h; cases h
  | cons w ws ih =>
    intro e h
    rw [collectSigs] at h
    rcases hl : signLoop (pubOf w) (attemptsOf w digest) with s | _ | _ <;> rw [hl] at h
    · rcases hr : collectSigs pubOf attemptsOf digest ws with e2 | sigs <;> rw [hr] at h
      · cases h
        exact ih hr
      · cases h
    · cases h
      exact Or.inl rfl
    · cases h
      exact Or.inr rfl

/-- A chain-parameter mapping that makes `sign` fail before signing: no
`chain_id` entry, or a `chain_id` that `unhexlify` rejects. -/
def chainParamsFault (p : List (String × String)) : Prop :=
  lookupAssoc p "chain_id" = none ∨
    ∃ c, lookupAssoc p "chain_id" = some c ∧ unhexlify? c = none

/-- The chain descriptors on which `sign` raises before any signing work:
a non-string non-dict argument, an unknown chain name, or resolved
parameters with a missing or non-hex `chain_id`. -/
def chainDescrFault (chain : ChainArg) : Prop :=
  chain = .otherA ∨
  (∃ s, chain = .strA s ∧ lookupAssoc known_chains s = none) ∨
  (∃ s p, chain = .strA s ∧ lookupAssoc known_chains s = some p ∧ chainParamsFault p) ∨
  (∃ d, chain = .dictA d ∧ chainParamsFault d)

/-- The errors of `sign` raised before any signing work. -/
def preSignErr : SignErr → Prop := fun e =>
  e = .badChainArg ∨ e = .missingChainId ∨ e = .badMessage

/-- C8 counterexample: for a mapping with a `chain_id` entry that is not
valid hex, `sign` raises before any signing work, with the transaction
fields unchanged, although the chain argument is a mapping that does contain
`chain_id` — so the claim's "exactly when" fails. -/
theorem c8_counterexample :
    sign (Signed_Transaction 0 0 "1970-01-01T00:00:00" .nil)
        (.dictA [("chain_id", "zz")]) [] (fun _ => []) (fun _ _ => []) (fun _ => []) =
      (some SignErr.badMessage, Signed_Transaction 0 0 "1970-01-01T00:00:00" .nil) ∧
    lookupAssoc [("chain_id", "zz")] "chain_id" = some "zz" ∧
    unhexlify? "zz" = none :=
  ⟨rfl, rfl, rfl⟩

/-- C8 amended: for a transaction whose body serializes, `sign` raises an
error of the pre-signing kind, with the transaction fields unchanged,
exactly when the chain argument is neither a known chain name string nor a
mapping, or the resolved parameters lack a `chain_id` entry, or the
`chain_id` value is not a string of hex digit pairs; and on such a faulty
descriptor the outcome does not depend on the keys at all. -/
theorem c8_sign_chain_errors (tx : FieldList) (chain : ChainArg) (wifkeys : List String)
    (pubOf : String → List Nat) (attemptsOf : String → List Nat → List Attempt)
    (sha256 : List Nat → List Nat) (body : List Nat)
    (hbody : fieldsBytes? tx = some body) :
    ((∃ e, preSignErr e ∧ sign tx chain wifkeys pubOf attemptsOf sha256 = (some e, tx)) ↔
      chainDescrFault chain) ∧
    (chainDescrFault chain →
      ∀ wifkeys', sign tx chain wifkeys' pubOf attemptsOf sha256 =
        sign tx chain wifkeys pubOf attemptsOf sha256) := by
  have key :
      (chainDescrFault chain ∧ ∃ e, preSignErr e ∧
        ∀ wk, sign tx chain wk pubOf attemptsOf sha256 = (some e, tx)) ∨
      (¬ chainDescrFault chain ∧ ∀ wk e, preSignErr e →
        sign tx chain wk pubOf attemptsOf sha256 ≠ (some e, tx)) := by
    cases chain with
    | otherA =>
      exact Or.inl ⟨Or.inl rfl, .badChainArg, Or.inl rfl, fun wk => rfl⟩
    | strA s =>
      rcases hks : lookupAssoc known_chains s with _ | p
      · refine Or.inl ⟨Or.inr (Or.inl ⟨s, rfl, hks⟩), .badChainArg, Or.inl rfl, fun wk => ?_⟩
        simp only [sign, resolveChain, hks]
      · rcases hcid : lookupAssoc p "chain_id" with _ | c
        · refine Or.inl ⟨Or.inr (Or.inr (Or.inl ⟨s, p, rfl, hks, Or.inl hcid⟩)),
            .missingChainId, Or.inr (Or.inl rfl), fun wk => ?_⟩
          simp only [sign, resolveChain, hks, hcid]
        · rcases hhex : unhexlify? c with _ | cb
          · have hmsg : signMessage? c tx = none := by rw [signMessage?, hhex]
            refine Or.inl ⟨Or.inr (Or.inr (Or.inl ⟨s, p, rfl, hks, Or.inr ⟨c, hcid, hhex⟩⟩)),
              .badMessage, Or.inr (Or.inr rfl), fun wk => ?_⟩
            simp only [sign, resolveChain, hks, hcid, hmsg]
          · have hmsg : signMessage? c tx = some (cb ++ body) := by
              rw [signMessage?, hhex, hbody]
            refine Or.inr ⟨?_, ?_⟩
            · rintro (h | ⟨s', hs', hks'⟩ | ⟨s', p', hs', hks', hpf⟩ | ⟨d', hd', _⟩)
              · cases h
              · cases hs'; rw [hks] at hks'; cases hks'
              · cases hs'
                rw [hks] at hks'
                cases hks'
                rcases hpf with hpf | ⟨c', hc', hx'⟩
                · rw [hcid] at hpf; cases hpf
                · rw [hcid] at hc'
                  cases hc'
                  rw [hhex] at hx'
                  cases hx'
              · cases hd'
            · intro wk e he heq
              simp only [sign, resolveChain, hks, hcid, hmsg] at heq
              rcases hcoll : collectSigs pubOf attemptsOf (sha256 (cb ++ body)) (pydedup wk)
                  with e' | sigs <;> rw [hcoll] at heq <;> simp only [Prod.mk.injEq] at heq
              · obtain ⟨he', -⟩ := heq
                cases he'
                rcases collectSigs_error_kind hcoll with rfl | rfl <;>
                  rcases he with h | h | h <;> cases h
              · exact Option.noConfusion heq.1
    | dictA d =>
      rcases hcid : lookupAssoc d "chain_id" with _ | c
      · refine Or.inl ⟨Or.inr (Or.inr (Or.inr ⟨d, rfl, Or.inl hcid⟩)),
          .missingChainId, Or.inr (Or.inl rfl), fun wk => ?_⟩
        simp only [sign, resolveChain, hcid]
      · rcases hhex : unhexlify? c with _ | cb
        · have hmsg : signMessage? c tx = none := by rw [signMessage?, hhex]
          refine Or.inl ⟨Or.inr (Or.inr (Or.inr ⟨d, rfl, Or.inr ⟨c, hcid, hhex⟩⟩)),
            .badMessage, Or.inr (Or.inr rfl), fun wk => ?_⟩
          simp only [sign, resolveChain, hcid, hmsg]
        · have hmsg : signMessage? c tx = some (cb ++ body) := by
            rw [signMessage?, hhex, hbody]
          refine Or.inr ⟨?_, ?_⟩
          · rintro (h | ⟨s', hs', _⟩ | ⟨s', p', hs', _, _⟩ | ⟨d', hd', hpf⟩)
            · cases h
            · cases hs'
            · cases hs'
            · cases hd'
              rcases hpf with hpf | ⟨c', hc', hx'⟩
              · rw [hcid] at hpf; cases hpf
              · rw [hcid] at hc'
                cases hc'
                rw [hhex] at hx'
                cases hx'
          · intro wk e he heq
            simp only [sign, resolveChain, hcid, hmsg] at heq
            rcases hcoll : collectSigs pubOf attemptsOf (sha256 (cb ++ body)) (pydedup wk)
                with e' | sigs <;> rw [hcoll] at heq <;> simp only [Prod.mk.injEq] at heq
            · obtain ⟨he', -⟩ := heq
              cases he'
              rcases collectSigs_error_kind hcoll with rfl | rfl <;>
                rcases he with h | h | h <;> cases h
            · exact Option.noConfusion heq.1
  constructor
  · constructor
    · rintro ⟨e, he, hsig⟩
      rcases key with ⟨hf, -⟩ | ⟨-, hno⟩
      · exact hf
      · exact absurd hsig (hno wifkeys e he)
    · intro hf
      rcases key with ⟨-, e, he, hall⟩ | ⟨hnf, -⟩
      · exact ⟨e, he, hall wifkeys⟩
      · exact absurd hf hnf
  · intro hf wifkeys'
    rcases key with ⟨-, e, -, hall⟩ | ⟨hnf, -⟩
    · rw [hall wifkeys', hall wifkeys]
    · exact absurd hf hnf

/-- Witness for C8 (amended) at an unknown chain name string. -/
theorem c8_sign_chain_errors_witness :
    ∃ e, preSignErr e ∧
      sign (Signed_Transaction 0 0 "1970-01-01T00:00:00" .nil) (.strA "NOPE") []
        (fun _ => []) (fun _ _ => []) (fun _ => []) =
      (some e, Signed_Transaction 0 0 "1970-01-01T00:00:00" .nil) :=
  (c8_sign_chain_errors (Signed_Transaction 0 0 "1970-01-01T00:00:00" .nil) (.strA "NOPE")
      [] (fun _ => []) (fun _ _ => []) (fun _ => [])
      [0, 0, 0, 0, 0, 0, 0, 0, 0, 0, 0, 0] (by decide)).1.mpr
    (Or.inr (Or.inl ⟨"NOPE", rfl, by decide⟩))

/-- Helper: success of the digit-run loop means every character is a digit. -/
theorem digitsGo_isSome : ∀ (s : List Char) (acc : Nat),
    (digitsGo s acc).isSome = s.all (fun c => decide ('0' ≤ c ∧ c ≤ '9')) := by
  intro s
  induction s with
  | nil => intro acc; rfl
  | cons c rest ih =>
    intro acc
    by_cases hd : '0' ≤ c ∧ c ≤ '9' <;> simp [digitsGo, digitVal?, hd, ih]

/-- Helper: success of `digits?` means a non-empty all-digit run. -/
theorem digits?_isSome (s : List Char) :
    (digits? s).isSome = (!s.isEmpty && s.all (fun c => decide ('0' ≤ c ∧ c ≤ '9'))) := by
  cases s with
  | nil => rfl
  | cons c rest => simp [digits?, digitsGo_isSome]

/-- Helper: mapping a function over an option preserves `isSome`. -/
theorem isSome_mapIntOfNat (o : Option Nat) (f : Nat → Int) : (o.map f).isSome = o.isSome := by
  cases o <;> rfl

/-- Helper: a character has a digit value exactly when it is a digit. -/
theorem digitVal?_isSome (c : Char) : (digitVal? c).isSome = isDigit c := by
  by_cases h : '0' ≤ c ∧ c ≤ '9' <;> simp [digitVal?, isDigit, h]

/-- Helper: the digit-run continuation succeeds exactly on `('_'? digit)*`. -/
theorem digitsUnd_isSome : ∀ (t : List Char) (acc : Nat),
    (digitsUnd t acc).isSome = groupedTail t
  | [], _ => rfl
  | c :: rest, acc => by
    rw [digitsUnd.eq_def, groupedTail.eq_def]
    dsimp only
    by_cases hc : c = '_'
    · rw [if_pos hc, if_pos hc]
      cases rest with
      | nil => rfl
      | cons c2 rest2 =>
        rcases hd : digitVal? c2 with _ | d <;> simp only [hd]
        · have h2 : isDigit c2 = false := by rw [← digitVal?_isSome, hd]; rfl
          simp [h2]
        · have h2 : isDigit c2 = true := by rw [← digitVal?_isSome, hd]; rfl
          simp [h2, digitsUnd_isSome rest2 (acc * 10 + d)]
    · rw [if_neg hc, if_neg hc]
      rcases hd : digitVal? c with _ | d <;> simp only [hd]
      · have h2 : isDigit c = false := by rw [← digitVal?_isSome, hd]; rfl
        simp [h2]
      · have h2 : isDigit c = true := by rw [← digitVal?_isSome, hd]; rfl
        simp [h2, digitsUnd_isSome rest (acc * 10 + d)]

/-- Helper: the digit-run parser succeeds exactly on grouped digit runs. -/
theorem pyDigits?_isSome (t : List Char) : (pyDigits? t).isSome = isDigitRun t := by
  cases t with
  | nil => rfl
  | cons c rest =>
    rw [pyDigits?.eq_def, isDigitRun.eq_def]
    dsimp only
    rcases hd : digitVal? c with _ | d <;> simp only [hd]
    · have h2 : isDigit c = false := by rw [← digitVal?_isSome, hd]; rfl
      simp [h2]
    · have h2 : isDigit c = true := by rw [← digitVal?_isSome, hd]; rfl
      simp [h2, digitsUnd_isSome]

/-- Helper: `int(...)` succeeds exactly on optionally signed,
underscore-grouped digit runs surrounded by optional whitespace. -/
theorem pyInt?_isSome_eq (s : List Char) : (pyInt? s).isSome = isIntLit s := by
  rw [pyInt?, isIntLit]
  rcases hstrip : pyStrip s with _ | ⟨c, rest⟩ <;> simp only [hstrip]
  · rfl
  · by_cases h1 : c = '-'
    · rw [if_pos h1, if_pos (Or.inl h1), isSome_mapIntOfNat, pyDigits?_isSome]
    · by_cases h2 : c = '+'
      · rw [if_neg h1, if_pos h2, if_pos (Or.inr h2), isSome_mapIntOfNat, pyDigits?_isSome]
      · rw [if_neg h1, if_neg h2, if_neg (show ¬(c = '-' ∨ c = '+') by tauto),
          isSome_mapIntOfNat, pyDigits?_isSome]

/-- Helper: `pyInt?_isSome_eq` as an iff. -/
theorem pyInt?_isSome_iff (s : List Char) : (pyInt? s).isSome = true ↔ isIntLit s = true := by
  rw [pyInt?_isSome_eq]

/-- The type-verification condition of `ObjectId.__init__`: no hint, a falsy
(empty) hint, or a registered hint whose index equals the parsed type. -/
def typeVerifyOk (tv : Option String) (ty : Int) : Prop :=
  match tv with
  | none => True
  | some t => t = "" ∨ ∃ v, lookupAssoc object_type t = some v ∧ (v : Int) = ty

/-- The texts (with hint) accepted by `ObjectId.__init__`: exactly three
dot-separated integer literals as Python `int` accepts them — optionally
signed, underscore-grouped digit runs surrounded by optional whitespace —
with a passing type-verification condition. -/
def goodObjectIdText (s : String) (tv : Option String) : Prop :=
  ∃ a b c, splitOn '.' s.data = [a, b, c] ∧
    isIntLit a = true ∧ isIntLit b = true ∧ isIntLit c = true ∧
    ∃ ty, pyInt? b = some ty ∧ typeVerifyOk tv ty

/-- The wire bytes of an `ObjectId` built from text with no hint. -/
def wireOfText? (s : String) : Option (List Nat) :=
  match ObjectIdInit s none with
  | .ok o => o.wire?
  | .error _ => none

/-- C9 counterexample: `ObjectId("1.2.-5")` does not raise although `-5` is
not a non-negative integer — Python `int` accepts the sign, so construction
succeeds with a negative instance (whose wire encoding then fails). -/
theorem c9_counterexample :
    ObjectIdInit "1.2.-5" none = .ok ⟨1, 2, -5, "1.2.-5"⟩ ∧
    (⟨1, 2, -5, "1.2.-5"⟩ : ObjIdRec).wire? = none := by
  constructor
  · rfl
  · rfl

/-- C9 amended: `ObjectId` construction from text raises exactly when the
text is not three dot-separated integer literals as Python `int` accepts
them — optionally signed, underscore-grouped digit runs surrounded by
optional whitespace, so negative (`1.2.-5`), padded (`1.2. 5`) and grouped
(`1.2.1_0`) components are all accepted without error — or when a truthy
`type_verify` hint is missing from the registry or mismatches the parsed
type index; on success the wire form is only the varint of the instance
(defined when the instance is non-negative), e.g. `[00]`, `[07]`, `[80 01]`
for `1.3.0`, `1.2.7`, `1.2.128`. -/
theorem c9_objectid_characterisation (s : String) (tv : Option String) :
    ((ObjectIdInit s tv).isOk = true ↔ goodObjectIdText s tv) ∧
    (∀ cs, (pyInt? cs).isSome ↔ isIntLit cs = true) ∧
    (∀ o, ObjectIdInit s tv = .ok o → 0 ≤ o.inst →
      o.wire? = some (varint o.inst.toNat)) ∧
    ObjectIdInit "1.2. 5" none = .ok ⟨1, 2, 5, "1.2. 5"⟩ ∧
    ObjectIdInit "1.2.1_0" none = .ok ⟨1, 2, 10, "1.2.1_0"⟩ ∧
    wireOfText? "1.3.0" = some [0x00] ∧
    wireOfText? "1.2.7" = some [0x07] ∧
    wireOfText? "1.2.128" = some [0x80, 0x01] := by
  refine ⟨?_, pyInt?_isSome_iff, ?_, rfl, rfl, rfl, rfl, rfl⟩
  · constructor
    · intro hok
      rcases hsplit : splitOn '.' s.data with _ | ⟨a, _ | ⟨b, _ | ⟨c, _ | ⟨d, rest⟩⟩⟩⟩ <;>
        simp only [ObjectIdInit, hsplit, Except.isOk, Except.toBool] at hok <;>
        try exact absurd hok (by decide)
      rcases hpa : pyInt? a with _ | va <;>
          simp only [hpa, Except.isOk, Except.toBool] at hok <;>
        try exact absurd hok (by decide)
      rcases hpb : pyInt? b with _ | ty <;>
          simp only [hpb, Except.isOk, Except.toBool] at hok <;>
        try exact absurd hok (by decide)
      rcases hpc : pyInt? c with _ | vc <;>
          simp only [hpc, Except.isOk, Except.toBool] at hok <;>
        try exact absurd hok (by decide)
      have hia : isIntLit a = true := (pyInt?_isSome_iff a).mp (by rw [hpa]; rfl)
      have hib : isIntLit b = true := (pyInt?_isSome_iff b).mp (by rw [hpb]; rfl)
      have hic : isIntLit c = true := (pyInt?_isSome_iff c).mp (by rw [hpc]; rfl)
      refine ⟨a, b, c, hsplit, hia, hib, hic, ty, hpb, ?_⟩
      cases tv with
      | none => trivial
      | some t =>
        dsimp only at hok
        by_cases ht : t = ""
        · exact Or.inl ht
        · rw [if_neg ht] at hok
          rcases hlk : lookupAssoc object_type t with _ | v <;>
              simp only [hlk, Except.isOk, Except.toBool] at hok <;>
            try exact absurd hok (by decide)
          by_cases hv : (v : Int) = ty
          · exact Or.inr ⟨v, hlk, hv⟩
          · rw [if_neg hv] at hok
            simp at hok
    · rintro ⟨a, b, c, hsplit, hia, hib, hic, ty, hpb, htv⟩
      obtain ⟨va, hpa⟩ := Option.isSome_iff_exists.mp ((pyInt?_isSome_iff a).mpr hia)
      obtain ⟨vc, hpc⟩ := Option.isSome_iff_exists.mp ((pyInt?_isSome_iff c).mpr hic)
      simp only [ObjectIdInit, hsplit, hpa, hpb, hpc]
      cases tv with
      | none => rfl
      | some t =>
        dsimp only
        rcases htv with rfl | ⟨v, hlk, hv⟩
        · rfl
        · by_cases ht : t = ""
          · rw [if_pos ht]; rfl
          · rw [if_neg ht]
            simp only [hlk]
            rw [if_pos hv]
            rfl
  · intro o hinit hpos
    rw [ObjIdRec.wire?, if_pos hpos]

/-- Witness for C9 (amended) applying the characterisation at `1.2.7` with
an `account` hint. -/
theorem c9_objectid_characterisation_witness :
    (ObjectIdInit "1.2.7" (some "account")).isOk = true :=
  (c9_objectid_characterisation "1.2.7" (some "account")).1.mpr
    ⟨"1".data, "2".data, "7".data, by decide, by decide, by decide, by decide, 2, by decide,
      Or.inr ⟨2, by decide, by decide⟩⟩

end Graphene
